import Mathlib

/-!
Verification development for the AINX async concurrency substrate
(`src/workspace/async_workspace.py`, `src/message_bus/async_message_bus.py`,
`src/test_async_foundation.py`).

The Python code is single-process cooperative (asyncio).  Every operation the
claims are about runs its state mutations without yielding between them under
the relevant lock, so we embed each component as a pure state-transformer on an
explicit state record.  Nondeterministic environment inputs (uuid4, time.time)
are passed as explicit parameters or modelled as a logical clock carried in the
state; their concrete values never matter to any claim, only the record shapes
and orders do.

Python dicts are embedded as insertion-ordered association lists (`Dict`),
matching dict iteration order and the `defaultdict` lazy-creation behavior.
Python values occurring in the claims' scenarios are embedded as `PyVal`, with
`PyVal.none` standing for Python `None`; `dict.get(key)` returning `None` when
the key is absent is `Workspace.pyGet` below.
-/

namespace AINX

/-- Universe of Python values the modelled code stores and compares.
`strlist` covers the list-of-deleted-keys value used in clear records. -/
inductive PyVal where
  | none
  | bool (b : Bool)
  | int (n : Int)
  | str (s : String)
  | strlist (xs : List String)
  deriving DecidableEq

/-- Insertion-ordered association list: the embedding of a Python dict. -/
abbrev Dict (α β : Type) := List (α × β)

/-- Dict lookup: Python `d[k]` / `k in d` (first — and only — binding wins;
our dicts keep keys unique, as Python dicts do). -/
def dget {α β : Type} [DecidableEq α] : Dict α β → α → Option β
  | [], _ => Option.none
  | (k', v) :: rest, k => if k' = k then some v else dget rest k

/-- Dict store: Python `d[k] = v`.  Updates in place if present (keeping
insertion order), appends at the end otherwise — exactly dict semantics. -/
def dset {α β : Type} [DecidableEq α] : Dict α β → α → β → Dict α β
  | [], k, v => [(k, v)]
  | (k', v') :: rest, k, v =>
      if k' = k then (k, v) :: rest else (k', v') :: dset rest k v

/-- Dict delete: Python `del d[k]`. -/
def ddel {α β : Type} [DecidableEq α] : Dict α β → α → Dict α β
  | [], _ => []
  | (k', v') :: rest, k => if k' = k then rest else (k', v') :: ddel rest k

/-- Dict key view: Python `list(d.keys())`, in insertion order. -/
def dkeys {α β : Type} (d : Dict α β) : List α := d.map (fun p => p.1)

/-! ## Workspace (`src/workspace/async_workspace.py`, class `AsyncWorkspace`)

The per-key `asyncio.Lock` serializes same-key mutations; each mutation body
runs without awaiting anything that touches workspace state, so the sequential
state-transformer below is the per-key serialization order semantics.
Fire-and-forget subscriber notification is recorded in an event log
(`notifications`): one entry per `_notify_subscribers(key, change_record)`
call the Python code makes. -/

/-- One entry of `AsyncWorkspace.change_history`. -/
structure ChangeRecord where
  key : String
  operation : String
  agent_id : Option String
  timestamp : Nat
  old_value : PyVal
  new_value : PyVal
  deriving DecidableEq

/-- One entry of `AsyncWorkspace.metadata`. -/
structure MetaRecord where
  agent_id : Option String
  timestamp : Nat
  operation : String
  previous_value : PyVal
  deriving DecidableEq

/-- State of `AsyncWorkspace`.  `now` is the logical clock standing for
`time.time()`; `notifications` logs the `_notify_subscribers(key, record)`
calls (the key whose subscriber list, plus the wildcard list, is targeted,
paired with the record passed). -/
structure Workspace where
  data : Dict String PyVal
  metadata : Dict String MetaRecord
  change_history : List ChangeRecord
  notifications : List (String × ChangeRecord)
  reads : Nat
  writes : Nat
  updates : Nat
  deletes : Nat
  now : Nat
  deriving DecidableEq

/-- `AsyncWorkspace.__init__`. -/
def emptyWorkspace : Workspace :=
  { data := [], metadata := [], change_history := [], notifications := []
    reads := 0, writes := 0, updates := 0, deletes := 0, now := 0 }

/-- Python `self.data.get(key)`: the stored value, or `None` when absent. -/
def Workspace.pyGet (w : Workspace) (key : String) : PyVal :=
  (dget w.data key).getD PyVal.none

/-- `AsyncWorkspace.set(key, value, agent_id)`: capture `old_value` via
`data.get`, store, write metadata, append one change record, classify the
mutation for stats by `old_value is None`, notify subscribers.  The Python
`try` body cannot raise here, so the result flag is always `True`. -/
def Workspace.set (w : Workspace) (key : String) (value : PyVal)
    (agent_id : Option String) : Workspace × Bool :=
  let old_value := w.pyGet key
  let cr : ChangeRecord :=
    { key := key, operation := "set", agent_id := agent_id, timestamp := w.now
      old_value := old_value, new_value := value }
  let md : MetaRecord :=
    { agent_id := agent_id, timestamp := w.now, operation := "set"
      previous_value := old_value }
  ({ w with
      data := dset w.data key value
      metadata := dset w.metadata key md
      change_history := w.change_history ++ [cr]
      writes := if old_value = PyVal.none then w.writes + 1 else w.writes
      updates := if old_value = PyVal.none then w.updates else w.updates + 1
      notifications := w.notifications ++ [(key, cr)]
      now := w.now + 1 }, true)

/-- `AsyncWorkspace.get(key)`: bumps the read counter, returns
`data.get(key)` (i.e. `None` when absent). -/
def Workspace.get (w : Workspace) (key : String) : Workspace × PyVal :=
  ({ w with reads := w.reads + 1 }, w.pyGet key)

/-- `AsyncWorkspace.delete(key, agent_id)`: guarded by `key in self.data`;
removes data and metadata, appends one change record, bumps the delete
counter, notifies.  Absent key: no state change, returns `False`. -/
def Workspace.delete (w : Workspace) (key : String)
    (agent_id : Option String) : Workspace × Bool :=
  match dget w.data key with
  | Option.none => (w, false)
  | some old_value =>
      let cr : ChangeRecord :=
        { key := key, operation := "delete", agent_id := agent_id
          timestamp := w.now, old_value := old_value, new_value := PyVal.none }
      ({ w with
          data := ddel w.data key
          metadata := ddel w.metadata key
          change_history := w.change_history ++ [cr]
          deletes := w.deletes + 1
          notifications := w.notifications ++ [(key, cr)]
          now := w.now + 1 }, true)

/-- `AsyncWorkspace.clear(agent_id)`: snapshots `old_keys`, empties data and
metadata, appends a SINGLE change record with key `"*"`, operation `"clear"`
and `old_value = old_keys`, then calls `_notify_subscribers(key, record)`
once per removed key with that one shared record.  No stats counter is
touched.  Returns `True`. -/
def Workspace.clear (w : Workspace) (agent_id : Option String) :
    Workspace × Bool :=
  let old_keys := dkeys w.data
  let cr : ChangeRecord :=
    { key := "*", operation := "clear", agent_id := agent_id
      timestamp := w.now, old_value := PyVal.strlist old_keys
      new_value := PyVal.none }
  ({ w with
      data := [], metadata := []
      change_history := w.change_history ++ [cr]
      notifications := w.notifications ++ old_keys.map (fun k => (k, cr))
      now := w.now + 1 }, true)

/-- A mutation call on the workspace, for reasoning about call sequences. -/
inductive WOp where
  | wset (key : String) (value : PyVal) (agent_id : Option String)
  | wdel (key : String) (agent_id : Option String)
  | wclear (agent_id : Option String)
  deriving DecidableEq

/-- Apply one mutation call (result flag dropped). -/
def Workspace.applyOp (w : Workspace) : WOp → Workspace
  | WOp.wset k v a => (w.set k v a).1
  | WOp.wdel k a => (w.delete k a).1
  | WOp.wclear a => (w.clear a).1

/-- Run a serialization (a sequence of mutation calls). -/
def runOps (w : Workspace) : List WOp → Workspace
  | [] => w
  | op :: ops => runOps (w.applyOp op) ops

/-- The change records a single call appends, read off the source: one for
every `set`, one for a `delete` of a present key, none for a `delete` of an
absent key, and a single `"*"`-keyed record for a `clear`. -/
def Workspace.recordsOf (w : Workspace) : WOp → List ChangeRecord
  | WOp.wset k v a =>
      [{ key := k, operation := "set", agent_id := a, timestamp := w.now
         old_value := w.pyGet k, new_value := v }]
  | WOp.wdel k a =>
      match dget w.data k with
      | Option.none => []
      | some ov =>
          [{ key := k, operation := "delete", agent_id := a, timestamp := w.now
             old_value := ov, new_value := PyVal.none }]
  | WOp.wclear a =>
      [{ key := "*", operation := "clear", agent_id := a, timestamp := w.now
         old_value := PyVal.strlist (dkeys w.data), new_value := PyVal.none }]

/-- The records bearing a given key appended over a call sequence, in call
order: the per-key serialization of the history. -/
def perKeyRecords (w : Workspace) (k : String) : List WOp → List ChangeRecord
  | [] => []
  | op :: ops =>
      (w.recordsOf op).filter (fun r => r.key = k)
        ++ perKeyRecords (w.applyOp op) k ops

/-- Number of `set` calls in a sequence whose captured previous value
(`data.get(key)`) is `None` at call time — the quantity the source's
`writes` counter actually tracks. -/
def countWriteClassified (w : Workspace) : List WOp → Nat
  | [] => 0
  | op :: ops =>
      (match op with
        | WOp.wset k _ _ => if w.pyGet k = PyVal.none then 1 else 0
        | _ => 0) + countWriteClassified (w.applyOp op) ops

/-- Number of `set` calls in a sequence whose captured previous value is not
`None` at call time — what the source's `updates` counter tracks. -/
def countUpdateClassified (w : Workspace) : List WOp → Nat
  | [] => 0
  | op :: ops =>
      (match op with
        | WOp.wset k _ _ => if w.pyGet k = PyVal.none then 0 else 1
        | _ => 0) + countUpdateClassified (w.applyOp op) ops

/-! ## Message bus (`src/message_bus/async_message_bus.py`, class
`AsyncMessageBus`)

`message_queues` is a `defaultdict(lambda: deque(maxlen=max_queue_size))`
keyed by recipient (any Python value; in practice strings), so it is a
`Dict PyVal (List Msg)` here, and bare `self.message_queues[x]` access
lazily creates an empty queue for `x`.  `message_history` is a
`deque(maxlen=10000)`.  uuid4 and time.time are environment inputs, passed
as explicit parameters to `send_message`.  Routing-rule callbacks and
subscriber callbacks are arbitrary external code; rules are modelled only by
the set of recipients they are registered for (the theorems below all
hypothesize that the recipient under scrutiny has no rule), and subscriber
notification — fire-and-forget tasks that never touch bus state — is not
part of the bus state. -/

/-- A message: a Python dict from field names to values. -/
abbrev Msg := Dict String PyVal

/-- Append to a `collections.deque` with `maxlen`: when the deque is full the
oldest (leftmost) entries are discarded to admit the newest. -/
def dequeAppend (maxlen : Nat) (q : List Msg) (m : Msg) : List Msg :=
  let q' := q ++ [m]
  if maxlen < q'.length then q'.drop (q'.length - maxlen) else q'

/-- The errors `send_message` can raise: `RuntimeError` when the bus is not
running, `ValueError` on an invalid message format. -/
inductive BusError where
  | notRunning
  | invalidMessage
  deriving DecidableEq

/-- State of `AsyncMessageBus`. -/
structure AsyncMessageBus where
  max_queue_size : Nat
  message_queues : Dict PyVal (List Msg)
  message_history : List Msg
  routing_rules : List String
  messages_sent : Nat
  messages_delivered : Nat
  failed_deliveries : Nat
  running : Bool
  deriving DecidableEq

/-- `AsyncMessageBus.__init__(max_queue_size)`. -/
def AsyncMessageBus.init (max_queue_size : Nat) : AsyncMessageBus :=
  { max_queue_size := max_queue_size, message_queues := []
    message_history := [], routing_rules := [], messages_sent := 0
    messages_delivered := 0, failed_deliveries := 0, running := false }

/-- `AsyncMessageBus.start()`. -/
def AsyncMessageBus.start (b : AsyncMessageBus) : AsyncMessageBus :=
  { b with running := true }

/-- `_validate_message`: all five required AINX fields present. -/
def requiredFields : List String :=
  ["sender", "recipient", "role", "intent", "content"]

/-- Whether every required field is a key of the message dict. -/
def validate_message (m : Msg) : Bool :=
  requiredFields.all (fun f => (dget m f).isSome)

/-- Python `message.setdefault(k, v)` (value part; the dict is returned). -/
def msgSetdefault (m : Msg) (k : String) (v : PyVal) : Msg :=
  match dget m k with
  | some _ => m
  | Option.none => m ++ [(k, v)]

/-- The metadata defaulting `send_message` performs before validation:
`setdefault("message_id", uuid4)` then `setdefault("timestamp", time)`. -/
def withDefaults (m : Msg) (freshId : String) (t : Nat) : Msg :=
  msgSetdefault (msgSetdefault m "message_id" (PyVal.str freshId))
    "timestamp" (PyVal.int t)

/-- `_deliver_message(message, recipient)`: `self.message_queues[recipient]`
lazily creates the queue, `.append` pushes with ring-buffer eviction, and the
delivered counter is bumped.  The `try` body cannot raise here, so
`failed_deliveries` is untouched. -/
def AsyncMessageBus.deliver_message (b : AsyncMessageBus) (m : Msg)
    (recipient : PyVal) : AsyncMessageBus :=
  let q := (dget b.message_queues recipient).getD []
  { b with
      message_queues :=
        dset b.message_queues recipient (dequeAppend b.max_queue_size q m)
      messages_delivered := b.messages_delivered + 1 }

/-- `_broadcast_message(message)`: snapshot the known recipients (the queue
dict's keys), deliver a copy to each one other than `message.get("sender")`.
The Python code gathers one task per recipient; no delivery awaits between
its own state mutations, so the snapshot-order fold is its semantics. -/
def AsyncMessageBus.broadcast_message (b : AsyncMessageBus) (m : Msg) :
    AsyncMessageBus :=
  let sender := (dget m "sender").getD PyVal.none
  (dkeys b.message_queues).foldl
    (fun acc a => if a = sender then acc else acc.deliver_message m a) b

/-- Does `message.get("recipient")` hit a registered routing rule
(`recipient in self.routing_rules`, a str-keyed dict)? -/
def AsyncMessageBus.hasRule (b : AsyncMessageBus) : PyVal → Bool
  | PyVal.str r => b.routing_rules.contains r
  | _ => false

/-- `_route_message`: broadcast, else custom routing rule, else direct
delivery.  A routing rule is an arbitrary external callback replacing the
default enqueue; its effect is outside the model, and every theorem below
hypothesizes that the branch is not taken. -/
def AsyncMessageBus.route_message (b : AsyncMessageBus) (m : Msg) :
    AsyncMessageBus :=
  let recipient := (dget m "recipient").getD PyVal.none
  if recipient = PyVal.str "broadcast" then b.broadcast_message m
  else if b.hasRule recipient then b
  else b.deliver_message m recipient

/-- `send_message(message)`: raise if not running; fill in id/timestamp
defaults; raise (after the defaulting, before any bus-state write) if a
required field is missing; append a copy to the bounded history; route; bump
the sent counter.  Returns the outcome, the bus state as of return/raise
time, and the (possibly defaulted) message. -/
def AsyncMessageBus.send_message (b : AsyncMessageBus) (m : Msg)
    (freshId : String) (t : Nat) :
    Except BusError Unit × AsyncMessageBus × Msg :=
  if b.running = false then (Except.error BusError.notRunning, b, m)
  else
    let m' := withDefaults m freshId t
    if validate_message m' = false then
      (Except.error BusError.invalidMessage, b, m')
    else
      let b1 := { b with message_history := dequeAppend 10000 b.message_history m' }
      let b2 := b1.route_message m'
      (Except.ok (), { b2 with messages_sent := b2.messages_sent + 1 }, m')

/-- `get_messages_for_agent(agent_id)` (drain): `self.message_queues[agent_id]`
lazily creates the queue; the popleft loop removes and returns everything in
FIFO order, leaving the (now necessarily existing) queue empty. -/
def AsyncMessageBus.get_messages_for_agent (b : AsyncMessageBus)
    (agent_id : String) : List Msg × AsyncMessageBus :=
  let key := PyVal.str agent_id
  let msgs := (dget b.message_queues key).getD []
  (msgs, { b with message_queues := dset b.message_queues key [] })

/-- `peek_messages_for_agent(agent_id)`: `self.message_queues[agent_id]`
also lazily creates the queue; the contents are returned unremoved. -/
def AsyncMessageBus.peek_messages_for_agent (b : AsyncMessageBus)
    (agent_id : String) : List Msg × AsyncMessageBus :=
  let key := PyVal.str agent_id
  let msgs := (dget b.message_queues key).getD []
  (msgs,
    match dget b.message_queues key with
    | some _ => b
    | Option.none => { b with message_queues := b.message_queues ++ [(key, [])] })

/-- The result of `get_stats()` (the subscriber count, irrelevant to every
claim, is omitted; subscribers are external callbacks outside the model). -/
structure BusStats where
  messages_sent : Nat
  messages_delivered : Nat
  failed_deliveries : Nat
  queue_sizes : Dict PyVal Nat
  total_agents : Nat
  routing_rules : Nat
  running : Bool
  deriving DecidableEq

/-- `get_stats()`. -/
def AsyncMessageBus.get_stats (b : AsyncMessageBus) : BusStats :=
  { messages_sent := b.messages_sent
    messages_delivered := b.messages_delivered
    failed_deliveries := b.failed_deliveries
    queue_sizes := b.message_queues.map (fun p => (p.1, p.2.length))
    total_agents := b.message_queues.length
    routing_rules := b.routing_rules.length
    running := b.running }

/-- A batch of `send_message` calls, each with its environment inputs
(fresh uuid, wall-clock reading); failed sends leave the state they raised
with, exactly as in Python. -/
def sendAll (b : AsyncMessageBus) (items : List (Msg × String × Nat)) :
    AsyncMessageBus :=
  items.foldl (fun acc it => (acc.send_message it.1 it.2.1 it.2.2).2.1) b

/-! ## Agent runtime (`src/test_async_foundation.py`, class `AsyncAgentBase`)

`self.status` is a plain string.  The only assignments to it in the source:
`"idle"` in `__init__`, `"listening"` at the top of `start_listening`,
`"stopping"` then (after awaiting the tracked active tasks) `"stopped"` in
`stop`.  `initialize` binds workspace/bus and never touches `status`.
`active_tasks` is modelled by its number of still-running tasks; the
`asyncio.gather` in `stop` runs them all to completion. -/

/-- The status-relevant state of an `AsyncAgentBase`. -/
structure AgentState where
  status : String
  activeTasks : Nat
  deriving DecidableEq

/-- `AsyncAgentBase.__init__`: `self.status = "idle"`, empty task set. -/
def AgentState.construct : AgentState := { status := "idle", activeTasks := 0 }

/-- The sole status write of `start_listening` (at entry, before the loop). -/
def startListeningEntry (a : AgentState) : AgentState :=
  { a with status := "listening" }

/-- First half of `stop()`: `self.status = "stopping"`. -/
def stopBeginPhase (a : AgentState) : AgentState :=
  { a with status := "stopping" }

/-- The `asyncio.gather(*self.active_tasks, ...)` await in `stop()`: every
tracked active task runs to completion before control returns. -/
def awaitActiveTasks (a : AgentState) : AgentState := { a with activeTasks := 0 }

/-- The whole of `stop()`: stopping, await tracked tasks, stopped. -/
def stopRun (a : AgentState) : AgentState :=
  let a1 := stopBeginPhase a
  let a2 := awaitActiveTasks a1
  { a2 with status := "stopped" }

/-- The externally callable lifecycle methods that can touch `self.status`
(`reinit` stands for the source's initialize method, which binds the
workspace and bus and writes no status). -/
inductive AgentMethod where
  | reinit
  | startListening
  | stop
  deriving DecidableEq

/-- The sequence of values a method assigns to `self.status`, in program
order, read off the source. -/
def statusWrites : AgentMethod → List String
  | AgentMethod.reinit => []
  | AgentMethod.startListening => ["listening"]
  | AgentMethod.stop => ["stopping", "stopped"]

/-- The full sequence of values `self.status` takes over a sequence of
lifecycle method calls, starting from construction. -/
def statusTrace (ms : List AgentMethod) : List String :=
  "idle" :: (ms.map statusWrites).flatten

/-- The six status values the spec's state machine names. -/
def specStatuses : List String :=
  ["idle", "listening", "processing", "stopping", "stopped", "error"]

/-- Is there an adjacent step from `a` to `b` in a status trace? -/
def hasStep (a b : String) : List String → Bool
  | x :: y :: rest => (x == a && y == b) || hasStep a b (y :: rest)
  | _ => false

end AINX

namespace AINX

/-! ## Concrete fixtures (mirroring the source's own test block) -/

/-- A well-formed AINX message: all five required fields present. -/
def mkTestMsg (sender recipient : String) (content : PyVal) : Msg :=
  [("sender", PyVal.str sender), ("recipient", PyVal.str recipient),
   ("role", PyVal.str "user"), ("intent", PyVal.str "ping"),
   ("content", content)]

/-- A freshly started bus with the given per-recipient capacity. -/
def runningBus (cap : Nat) : AsyncMessageBus := (AsyncMessageBus.init cap).start

/-- Two sends addressed to "bot", with their environment inputs. -/
def c3items : List (Msg × String × Nat) :=
  [(mkTestMsg "human" "bot" (PyVal.int 1), "id1", 1),
   (mkTestMsg "human" "bot" (PyVal.int 2), "id2", 2)]

/-- Three sends addressed to "bot": one more than a capacity of two. -/
def c4items : List (Msg × String × Nat) :=
  [(mkTestMsg "human" "bot" (PyVal.int 1), "id1", 1),
   (mkTestMsg "human" "bot" (PyVal.int 2), "id2", 2),
   (mkTestMsg "human" "bot" (PyVal.int 3), "id3", 3)]

/-- A running bus that already knows three recipients, the sender among
them. -/
def broadcastBus : AsyncMessageBus :=
  { runningBus 2 with message_queues :=
      [(PyVal.str "alice", []), (PyVal.str "bob", []),
       (PyVal.str "human", [])] }

end AINX

namespace AINX

/-! ## Helper lemmas about the dict embedding -/

theorem dget_dset_self {α β : Type} [DecidableEq α] (d : Dict α β) (k : α) (v : β) :
    dget (dset d k v) k = some v := by
  induction d with
  | nil => simp [dset, dget]
  | cons p rest ih =>
      obtain ⟨k', v'⟩ := p
      by_cases h : k' = k
      · simp [dset, dget, h]
      · simp [dset, dget, h, ih]

theorem dget_dset_ne {α β : Type} [DecidableEq α] (d : Dict α β) (k k' : α) (v : β)
    (h : k ≠ k') : dget (dset d k v) k' = dget d k' := by
  induction d with
  | nil => simp [dset, dget, h]
  | cons p rest ih =>
      obtain ⟨k0, v0⟩ := p
      by_cases h0 : k0 = k
      · subst h0
        simp [dset, dget, h]
      · simp [dset, dget, h0, ih]

theorem dkeys_cons {α β : Type} (k0 : α) (v0 : β) (rest : Dict α β) :
    dkeys ((k0, v0) :: rest) = k0 :: dkeys rest := rfl

theorem dget_eq_none_of_not_mem_keys {α β : Type} [DecidableEq α]
    (d : Dict α β) (k : α) (h : k ∉ dkeys d) : dget d k = Option.none := by
  induction d with
  | nil => simp [dget]
  | cons p rest ih =>
      obtain ⟨k0, v0⟩ := p
      rw [dkeys_cons, List.mem_cons] at h
      push_neg at h
      show (if k0 = k then some v0 else dget rest k) = Option.none
      rw [if_neg (fun hh : k0 = k => h.1 hh.symm)]
      exact ih h.2

theorem not_mem_keys_of_dget_eq_none {α β : Type} [DecidableEq α]
    (d : Dict α β) (k : α) (h : dget d k = Option.none) : k ∉ dkeys d := by
  induction d with
  | nil => simp [dkeys]
  | cons p rest ih =>
      obtain ⟨k0, v0⟩ := p
      by_cases h0 : k0 = k
      · simp [dget, h0] at h
      · simp [dget, h0] at h
        rw [dkeys_cons, List.mem_cons]
        push_neg
        exact ⟨Ne.symm h0, ih h⟩

theorem dset_of_dget_none {α β : Type} [DecidableEq α] (d : Dict α β) (k : α) (v : β)
    (h : dget d k = Option.none) : dset d k v = d ++ [(k, v)] := by
  induction d with
  | nil => simp [dset]
  | cons p rest ih =>
      obtain ⟨k0, v0⟩ := p
      by_cases h0 : k0 = k
      · simp [dget, h0] at h
      · simp [dget, h0] at h
        simp [dset, h0, ih h]

theorem dkeys_dset_of_mem {α β : Type} [DecidableEq α] (d : Dict α β) (k : α) (v : β)
    (h : k ∈ dkeys d) : dkeys (dset d k v) = dkeys d := by
  induction d with
  | nil => simp [dkeys] at h
  | cons p rest ih =>
      obtain ⟨k0, v0⟩ := p
      by_cases h0 : k0 = k
      · simp [dset, h0, dkeys]
      · rw [dkeys_cons, List.mem_cons] at h
        rcases h with h | h
        · exact absurd h.symm h0
        · simp only [dset, h0, if_false, dkeys_cons, ih h]

theorem dget_append_single_ne {α β : Type} [DecidableEq α] (d : Dict α β)
    (k f : α) (v : β) (h : k ≠ f) : dget (d ++ [(k, v)]) f = dget d f := by
  induction d with
  | nil => simp [dget, h]
  | cons p rest ih =>
      obtain ⟨k0, v0⟩ := p
      by_cases h0 : k0 = f
      · simp [dget, h0]
      · simp [dget, h0, ih]

theorem dget_append_single_self {α β : Type} [DecidableEq α] (d : Dict α β)
    (k : α) (v : β) (h : dget d k = Option.none) : dget (d ++ [(k, v)]) k = some v := by
  induction d with
  | nil => simp [dget]
  | cons p rest ih =>
      obtain ⟨k0, v0⟩ := p
      by_cases h0 : k0 = k
      · simp [dget, h0] at h
      · simp [dget, h0] at h ⊢
        exact ih h

theorem dget_map_snd {α β γ : Type} [DecidableEq α] (d : Dict α β) (f : β → γ) (k : α) :
    dget (d.map (fun p => (p.1, f p.2))) k = (dget d k).map f := by
  induction d with
  | nil => simp [dget]
  | cons p rest ih =>
      obtain ⟨k0, v0⟩ := p
      by_cases h0 : k0 = k
      · simp [dget, h0]
      · simp [dget, h0, ih]

/-! ## Workspace helper lemmas -/

theorem applyOp_change_history (w : Workspace) (op : WOp) :
    (w.applyOp op).change_history = w.change_history ++ w.recordsOf op := by
  cases op with
  | wset k v a => rfl
  | wdel k a =>
      simp only [Workspace.applyOp, Workspace.delete, Workspace.recordsOf]
      cases dget w.data k with
      | none => simp
      | some ov => simp
  | wclear a => rfl

theorem runOps_replicate_set_history_length (k : String) (v : PyVal)
    (a : Option String) :
    ∀ (n : Nat) (w : Workspace),
      (runOps w (List.replicate n (WOp.wset k v a))).change_history.length
        = w.change_history.length + n := by
  intro n
  induction n with
  | zero => intro w; simp [runOps]
  | succ n ih =>
      intro w
      rw [List.replicate_succ]
      show (runOps (w.applyOp (WOp.wset k v a)) _).change_history.length = _
      rw [ih]
      rw [applyOp_change_history]
      simp [Workspace.recordsOf]
      omega

end AINX

namespace AINX

/-! ## Claims about the workspace -/

/-- Claim C1, counterexample: the change-history log is NOT capacity-bounded.
There is no fixed capacity C that the history length never exceeds: the
history of a run of n set calls has length n. -/
theorem C1_counterexample :
    ¬ ∃ C : Nat, ∀ ops : List WOp,
        (runOps emptyWorkspace ops).change_history.length ≤ C := by
  rintro ⟨C, h⟩
  have h1 := h (List.replicate (C + 1) (WOp.wset "k" (PyVal.int 0) Option.none))
  rw [runOps_replicate_set_history_length "k" (PyVal.int 0) Option.none (C + 1)
      emptyWorkspace] at h1
  simp [emptyWorkspace] at h1

/-- Claim C1 (amended): on every mutation the workspace appends the change
records of that call at the END of the change-history log (so the log is
append-only and each set, each clear, and each delete of a present key
appends exactly one record {key, operation, writer, timestamp, old_value,
new_value}); but the log is NOT capacity-bounded: no truncation ever
happens and its length grows beyond any fixed bound. -/
theorem C1_history_append_only_and_unbounded :
    (∀ (w : Workspace) (op : WOp),
        (w.applyOp op).change_history = w.change_history ++ w.recordsOf op)
    ∧ (∀ (w : Workspace) (k : String) (v : PyVal) (a : Option String),
        (w.recordsOf (WOp.wset k v a)).length = 1
        ∧ (w.recordsOf (WOp.wclear a)).length = 1
        ∧ (w.recordsOf (WOp.wdel k a)).length
            = if (dget w.data k).isSome then 1 else 0)
    ∧ (∀ C : Nat, ∃ ops : List WOp,
        C < (runOps emptyWorkspace ops).change_history.length) := by
  refine ⟨applyOp_change_history, ?_, ?_⟩
  · intro w k v a
    refine ⟨rfl, rfl, ?_⟩
    simp only [Workspace.recordsOf]
    cases dget w.data k with
    | none => simp
    | some ov => simp
  · intro C
    refine ⟨List.replicate (C + 1) (WOp.wset "k" (PyVal.int 0) Option.none), ?_⟩
    rw [runOps_replicate_set_history_length "k" (PyVal.int 0) Option.none (C + 1)
        emptyWorkspace]
    simp [emptyWorkspace]

/-- Claim C2, counterexample: clear does NOT emit one change record per
removed key.  On a workspace holding 2 keys, clear appends exactly one
record, not two. -/
theorem C2_counterexample :
    ¬ ∀ (w : Workspace) (a : Option String),
        ((w.clear a).1.change_history).length
          = w.change_history.length + w.data.length := by
  intro h
  exact absurd
    (h (runOps emptyWorkspace
        [WOp.wset "a" (PyVal.int 1) (some "A"),
         WOp.wset "b" (PyVal.int 2) (some "A")]) Option.none)
    (by decide)

/-- Claim C2 (amended): clear(writer) removes all n currently held keys but
emits a SINGLE change record — key "*", operation "clear", old_value the
list of removed keys — appended once to the history; subscribers of each
individual removed key are still notified: one notification is issued per
removed key, each carrying that one shared record. -/
theorem C2_clear_one_record_notify_per_key (w : Workspace) (a : Option String) :
    (w.clear a).2 = true
    ∧ (w.clear a).1.data = []
    ∧ (w.clear a).1.metadata = []
    ∧ (w.clear a).1.change_history
        = w.change_history
          ++ [{ key := "*", operation := "clear", agent_id := a,
                timestamp := w.now,
                old_value := PyVal.strlist (dkeys w.data),
                new_value := PyVal.none }]
    ∧ (w.clear a).1.notifications
        = w.notifications
          ++ (dkeys w.data).map (fun k =>
              (k, { key := "*", operation := "clear", agent_id := a,
                    timestamp := w.now,
                    old_value := PyVal.strlist (dkeys w.data),
                    new_value := PyVal.none })) :=
  ⟨rfl, rfl, rfl, rfl, rfl⟩

/-- Claim C7, counterexample: a delete call on a key does NOT always append
a record for that key: a delete of an absent key appends none.  So the
number of k-keyed records can differ from the number of set/delete calls
on k. -/
theorem C7_counterexample :
    ¬ ∀ (ops : List WOp) (k : String),
        (((runOps emptyWorkspace ops).change_history).filter
            (fun r => r.key = k)).length
          = (ops.filter (fun op =>
              match op with
              | WOp.wset k' _ _ => k' = k
              | WOp.wdel k' _ => k' = k
              | WOp.wclear _ => false)).length := by
  intro h
  exact absurd (h [WOp.wdel "a" Option.none] "a") (by decide)

/-- Claim C7 (amended): for every key k, the subsequence of the change
history bearing key k equals, in order, the concatenation of the records
appended by each successive call of the serialization — one record per set
on k and per delete of k while present, none for a delete of k while
absent, none (for k different from "*") for a clear.  So the per-key record
order matches the serialization order of the effective set/delete calls on
that key. -/
theorem C7_per_key_order_matches_calls :
    (∀ (w : Workspace) (k : String) (ops : List WOp),
        ((runOps w ops).change_history).filter (fun r => r.key = k)
          = w.change_history.filter (fun r => r.key = k)
            ++ perKeyRecords w k ops)
    ∧ (∀ (w : Workspace) (k : String) (v : PyVal) (a : Option String),
        ((w.recordsOf (WOp.wset k v a)).filter (fun r => r.key = k)).length = 1)
    ∧ (∀ (w : Workspace) (k : String) (a : Option String),
        ((w.recordsOf (WOp.wdel k a)).filter (fun r => r.key = k)).length
          = if (dget w.data k).isSome then 1 else 0) := by
  refine ⟨?_, ?_, ?_⟩
  · intro w k ops
    induction ops generalizing w with
    | nil => simp [runOps, perKeyRecords]
    | cons op ops ih =>
        show ((runOps (w.applyOp op) ops).change_history).filter _ = _
        rw [ih (w.applyOp op), applyOp_change_history, List.filter_append]
        simp [perKeyRecords, List.append_assoc]
  · intro w k v a
    simp [Workspace.recordsOf]
  · intro w k a
    simp only [Workspace.recordsOf]
    cases dget w.data k with
    | none => simp
    | some ov => simp

/-- Claim C8, counterexample: the write/update classification is by
`old_value is None`, not by key existence.  Setting k to None and then
setting k again counts two writes and zero updates, although the second
set hits an existing key; the claim predicts one write and one update. -/
theorem C8_counterexample :
    ((runOps emptyWorkspace
        [WOp.wset "k" PyVal.none (some "A"),
         WOp.wset "k" (PyVal.int 1) (some "A")]).writes = 2
      ∧ (runOps emptyWorkspace
          [WOp.wset "k" PyVal.none (some "A"),
           WOp.wset "k" (PyVal.int 1) (some "A")]).updates = 0)
    ∧ ¬ ((runOps emptyWorkspace
          [WOp.wset "k" PyVal.none (some "A"),
           WOp.wset "k" (PyVal.int 1) (some "A")]).writes = 1
        ∧ (runOps emptyWorkspace
            [WOp.wset "k" PyVal.none (some "A"),
             WOp.wset "k" (PyVal.int 1) (some "A")]).updates = 1) := by
  exact ⟨⟨by decide, by decide⟩, by decide⟩

/-- Claim C8 (amended): set(key, value, writer) captures the previous value
via data.get(key), stores the new value, appends one change record, and
classifies the mutation as a write exactly when that captured previous
value is None — i.e. when the key was absent OR currently held the value
None — and as an update otherwise; after any call sequence the stats
counters equal the counts of sets so classified (for None-valued stored
entries this differs from key existence). -/
theorem C8_set_stores_and_classifies_by_none :
    (∀ (w : Workspace) (k : String) (v : PyVal) (a : Option String),
        (w.set k v a).2 = true
        ∧ dget (w.set k v a).1.data k = some v
        ∧ (w.set k v a).1.change_history
            = w.change_history
              ++ [{ key := k, operation := "set", agent_id := a,
                    timestamp := w.now, old_value := w.pyGet k,
                    new_value := v }]
        ∧ (w.set k v a).1.writes
            = w.writes + (if w.pyGet k = PyVal.none then 1 else 0)
        ∧ (w.set k v a).1.updates
            = w.updates + (if w.pyGet k = PyVal.none then 0 else 1))
    ∧ (∀ (w : Workspace) (ops : List WOp),
        (runOps w ops).writes = w.writes + countWriteClassified w ops
        ∧ (runOps w ops).updates = w.updates + countUpdateClassified w ops) := by
  constructor
  · intro w k v a
    refine ⟨rfl, dget_dset_self w.data k v, rfl, ?_, ?_⟩
    · by_cases h : w.pyGet k = PyVal.none <;> simp [Workspace.set, h]
    · by_cases h : w.pyGet k = PyVal.none <;> simp [Workspace.set, h]
  · intro w ops
    induction ops generalizing w with
    | nil => simp [runOps, countWriteClassified, countUpdateClassified]
    | cons op ops ih =>
        show (runOps (w.applyOp op) ops).writes = _
          ∧ (runOps (w.applyOp op) ops).updates = _
        obtain ⟨ih1, ih2⟩ := ih (w.applyOp op)
        rw [ih1, ih2]
        constructor
        · simp only [countWriteClassified]
          cases op with
          | wset k v a =>
              by_cases h : w.pyGet k = PyVal.none <;>
                simp [Workspace.applyOp, Workspace.set, h] <;> omega
          | wdel k a =>
              simp only [Workspace.applyOp, Workspace.delete]
              cases dget w.data k with
              | none => simp
              | some ov => simp
          | wclear a =>
              simp [Workspace.applyOp, Workspace.clear]
        · simp only [countUpdateClassified]
          cases op with
          | wset k v a =>
              by_cases h : w.pyGet k = PyVal.none <;>
                simp [Workspace.applyOp, Workspace.set, h] <;> omega
          | wdel k a =>
              simp only [Workspace.applyOp, Workspace.delete]
              cases dget w.data k with
              | none => simp
              | some ov => simp
          | wclear a =>
              simp [Workspace.applyOp, Workspace.clear]

end AINX

namespace AINX

/-! ## Claims about the agent runtime lifecycle -/

/-- Claim C9, counterexample: a stopped runtime CAN step directly from
"stopped" to "listening" with no intervening re-initialization: calling
start_listening on a stopped agent assigns status = "listening"
unconditionally (and initialize would not touch status anyway).  The
method sequence start_listening; stop; start_listening — with no
initialize call — produces the adjacent status step stopped → listening. -/
theorem C9_counterexample :
    ¬ ∀ ms : List AgentMethod, AgentMethod.reinit ∉ ms →
        hasStep "stopped" "listening" (statusTrace ms) = false := by
  intro h
  exact absurd
    (h [AgentMethod.startListening, AgentMethod.stop, AgentMethod.startListening]
      (by decide))
    (by decide)

/-- Claim C9 (amended): every agent runtime's status sequence begins at
"idle"; every status value ever taken belongs to the six-element set
{idle, listening, processing, stopping, stopped, error}; stop() moves the
status through "stopping" to "stopped", assigning "stopped" only after the
await of the tracked active tasks has completed them all; but a stopped
runtime CAN step straight back to "listening" via a new start_listening
call, without any re-initialize. -/
theorem C9_status_lifecycle :
    (∀ ms : List AgentMethod, (statusTrace ms).head? = some "idle")
    ∧ (∀ ms : List AgentMethod,
        (statusTrace ms).all (fun s => specStatuses.contains s) = true)
    ∧ (∀ a : AgentState,
        (stopBeginPhase a).status = "stopping"
        ∧ (awaitActiveTasks (stopBeginPhase a)).activeTasks = 0
        ∧ stopRun a = { status := "stopped", activeTasks := 0 })
    ∧ AgentState.construct.status = "idle" := by
  refine ⟨fun ms => rfl, fun ms => ?_, fun a => ⟨rfl, rfl, rfl⟩, rfl⟩
  simp only [statusTrace, List.all_cons, Bool.and_eq_true]
  refine ⟨by decide, ?_⟩
  rw [List.all_flatten, List.all_eq_true]
  intro l hl
  rcases List.mem_map.mp hl with ⟨m, hm, rfl⟩
  cases m <;> decide

end AINX

namespace AINX

/-! ## Message-bus helper lemmas -/

theorem foldl_dequeAppend (c : Nat) :
    ∀ (ms : List Msg) (q : List Msg), q.length ≤ c →
      ms.foldl (dequeAppend c) q = (q ++ ms).drop (q.length + ms.length - c) := by
  intro ms
  induction ms with
  | nil =>
      intro q hq
      simp only [List.foldl_nil, List.append_nil, List.length_nil, Nat.add_zero,
        Nat.sub_eq_zero_of_le hq, List.drop_zero]
  | cons m ms ih =>
      intro q hq
      simp only [List.foldl_cons]
      by_cases hlt : c < q.length + 1
      · have hqc : q.length = c := by omega
        have hq1 : dequeAppend c q m = (q ++ [m]).drop 1 := by
          simp only [dequeAppend]
          rw [if_pos (by simp; omega)]
          congr 1
          simp only [List.length_append, List.length_cons, List.length_nil]
          omega
        rw [hq1]
        have hlen : ((q ++ [m]).drop 1).length = c := by simp [hqc]
        rw [ih _ (le_of_eq hlen), hlen]
        have hix : c + ms.length - c = ms.length := by omega
        rw [hix]
        have h1 : (1 : Nat) <= (q ++ [m]).length := by
          simp only [List.length_append, List.length_cons, List.length_nil]
          omega
        rw [← List.drop_append_of_le_length h1, List.drop_drop]
        have hl : (q ++ [m]) ++ ms = q ++ m :: ms := by simp
        rw [hl]
        congr 1
        simp only [List.length_cons]
        omega
      · have hq1 : dequeAppend c q m = q ++ [m] := by
          simp only [dequeAppend]
          rw [if_neg
            (by simp only [List.length_append, List.length_cons, List.length_nil]; omega)]
        rw [hq1]
        have hlen : (q ++ [m]).length ≤ c := by simp; omega
        rw [ih _ hlen]
        rw [List.append_assoc, List.singleton_append]
        congr 1
        simp
        omega

theorem dget_msgSetdefault_ne (m : Msg) (k f : String) (v : PyVal) (h : k ≠ f) :
    dget (msgSetdefault m k v) f = dget m f := by
  unfold msgSetdefault
  cases dget m k with
  | none => exact dget_append_single_ne m k f v h
  | some w => rfl

theorem dget_withDefaults_other (m : Msg) (freshId : String) (t : Nat)
    (f : String) (h1 : "message_id" ≠ f) (h2 : "timestamp" ≠ f) :
    dget (withDefaults m freshId t) f = dget m f := by
  unfold withDefaults
  rw [dget_msgSetdefault_ne _ _ _ _ h2, dget_msgSetdefault_ne _ _ _ _ h1]

theorem validate_withDefaults (m : Msg) (freshId : String) (t : Nat) :
    validate_message (withDefaults m freshId t) = validate_message m := by
  unfold validate_message requiredFields
  simp only [List.all_cons, List.all_nil]
  rw [dget_withDefaults_other m freshId t "sender" (by decide) (by decide),
      dget_withDefaults_other m freshId t "recipient" (by decide) (by decide),
      dget_withDefaults_other m freshId t "role" (by decide) (by decide),
      dget_withDefaults_other m freshId t "intent" (by decide) (by decide),
      dget_withDefaults_other m freshId t "content" (by decide) (by decide)]

theorem send_message_direct_effect (b : AsyncMessageBus) (m : Msg)
    (freshId : String) (t : Nat) (r : String)
    (hrun : b.running = true)
    (hval : validate_message (withDefaults m freshId t) = true)
    (hrecip : dget m "recipient" = some (PyVal.str r))
    (hnotb : r ≠ "broadcast")
    (hnorule : b.routing_rules.contains r = false) :
    (b.send_message m freshId t).1 = Except.ok ()
    ∧ (b.send_message m freshId t).2.1.message_queues
        = dset b.message_queues (PyVal.str r)
            (dequeAppend b.max_queue_size
              ((dget b.message_queues (PyVal.str r)).getD [])
              (withDefaults m freshId t))
    ∧ (b.send_message m freshId t).2.1.running = b.running
    ∧ (b.send_message m freshId t).2.1.routing_rules = b.routing_rules
    ∧ (b.send_message m freshId t).2.1.max_queue_size = b.max_queue_size
    ∧ (b.send_message m freshId t).2.2 = withDefaults m freshId t := by
  have hrec' : dget (withDefaults m freshId t) "recipient" = some (PyVal.str r) := by
    rw [dget_withDefaults_other m freshId t "recipient" (by decide) (by decide)]
    exact hrecip
  have hnorule' : r ∉ b.routing_rules := by simpa using hnorule
  refine ⟨?_, ?_, ?_, ?_, ?_, ?_⟩ <;>
    simp [AsyncMessageBus.send_message, AsyncMessageBus.route_message,
      AsyncMessageBus.deliver_message, AsyncMessageBus.hasRule,
      hrun, hval, hrec', hnorule', hnotb]

end AINX

namespace AINX

theorem sendAll_direct_queue (r : String) :
    ∀ (items : List (Msg × String × Nat)) (b : AsyncMessageBus),
      b.running = true →
      b.routing_rules.contains r = false →
      r ≠ "broadcast" →
      (∀ it ∈ items, validate_message (withDefaults it.1 it.2.1 it.2.2) = true) →
      (∀ it ∈ items, dget it.1 "recipient" = some (PyVal.str r)) →
      (dget (sendAll b items).message_queues (PyVal.str r)).getD []
          = (items.map (fun it => withDefaults it.1 it.2.1 it.2.2)).foldl
              (dequeAppend b.max_queue_size)
              ((dget b.message_queues (PyVal.str r)).getD [])
        ∧ (items ≠ [] →
            (dget (sendAll b items).message_queues (PyVal.str r)).isSome = true)
        ∧ (sendAll b items).max_queue_size = b.max_queue_size := by
  intro items
  induction items with
  | nil =>
      intro b hrun hnorule hnotb hval hrecip
      exact ⟨rfl, fun h => absurd rfl h, rfl⟩
  | cons it rest ih =>
      intro b hrun hnorule hnotb hval hrecip
      have heff := send_message_direct_effect b it.1 it.2.1 it.2.2 r hrun
        (hval it (List.mem_cons_self it rest))
        (hrecip it (List.mem_cons_self it rest)) hnotb hnorule
      obtain ⟨-, hq, hrunp, hrules, hcap, -⟩ := heff
      have hstep : sendAll b (it :: rest)
          = sendAll (b.send_message it.1 it.2.1 it.2.2).2.1 rest := rfl
      set b1 := (b.send_message it.1 it.2.1 it.2.2).2.1 with hb1
      have hih := ih b1 (by rw [hrunp, hrun]) (by rw [hrules]; exact hnorule) hnotb
        (fun x hx => hval x (List.mem_cons_of_mem it hx))
        (fun x hx => hrecip x (List.mem_cons_of_mem it hx))
      obtain ⟨ih1, ih2, ih3⟩ := hih
      have hq1 : dget b1.message_queues (PyVal.str r)
          = some (dequeAppend b.max_queue_size
              ((dget b.message_queues (PyVal.str r)).getD [])
              (withDefaults it.1 it.2.1 it.2.2)) := by
        rw [hq]
        exact dget_dset_self b.message_queues (PyVal.str r) _
      refine ⟨?_, ?_, ?_⟩
      · rw [hstep, ih1, hq1, hcap]
        simp only [List.map_cons, List.foldl_cons, Option.getD_some]
      · intro hne
        rcases List.eq_nil_or_concat rest with hr | hr
        · subst hr
          rw [hstep]
          show (dget b1.message_queues (PyVal.str r)).isSome = true
          rw [hq1]
          rfl
        · have hrne : rest ≠ [] := by
            rcases hr with ⟨xs, x, rfl⟩
            simp
          rw [hstep]
          exact ih2 hrne
      · rw [hstep, ih3, hcap]

/-- Claim C3: for every recipient and every batch of N sequential sends
addressed to it (N at most the queue capacity, starting from an empty queue
for that recipient), a drain returns exactly those N messages (with their
defaulted id/timestamp) in send order and leaves the queue empty; and
draining a recipient with no queued messages returns the empty sequence. -/
theorem C3_fifo_drain (b : AsyncMessageBus) (r : String)
    (items : List (Msg × String × Nat))
    (hrun : b.running = true)
    (hnorule : b.routing_rules.contains r = false)
    (hnotb : r ≠ "broadcast")
    (hval : ∀ it ∈ items, validate_message (withDefaults it.1 it.2.1 it.2.2) = true)
    (hrecip : ∀ it ∈ items, dget it.1 "recipient" = some (PyVal.str r))
    (hempty : (dget b.message_queues (PyVal.str r)).getD [] = [])
    (hcap : items.length ≤ b.max_queue_size) :
    ((sendAll b items).get_messages_for_agent r).1
        = items.map (fun it => withDefaults it.1 it.2.1 it.2.2)
    ∧ dget (((sendAll b items).get_messages_for_agent r).2).message_queues
        (PyVal.str r) = some []
    ∧ (∀ (b0 : AsyncMessageBus) (g : String),
        (dget b0.message_queues (PyVal.str g)).getD [] = [] →
        (b0.get_messages_for_agent g).1 = []) := by
  obtain ⟨h1, -, h3⟩ := sendAll_direct_queue r items b hrun hnorule hnotb hval hrecip
  refine ⟨?_, ?_, ?_⟩
  · show (dget (sendAll b items).message_queues (PyVal.str r)).getD [] = _
    rw [h1, hempty]
    rw [foldl_dequeAppend b.max_queue_size _ [] (by simp)]
    have hix : ([] : List Msg).length
        + (items.map (fun it => withDefaults it.1 it.2.1 it.2.2)).length
        - b.max_queue_size = 0 := by
      simp only [List.length_nil, List.length_map]
      omega
    rw [hix]
    simp
  · show dget (dset (sendAll b items).message_queues (PyVal.str r) [])
        (PyVal.str r) = some []
    exact dget_dset_self _ _ _
  · intro b0 g hg
    show (dget b0.message_queues (PyVal.str g)).getD [] = []
    exact hg

/-- Claim C4: per-recipient capacity is a per-instance constant, and sending
capacity+1 messages to one recipient (from an empty queue) leaves exactly
the most recent capacity messages in send order: the oldest is discarded by
the ring-buffer append, and the sender is never blocked (send stays a total
state transformer). -/
theorem C4_overflow_drops_oldest (b : AsyncMessageBus) (r : String)
    (items : List (Msg × String × Nat))
    (hrun : b.running = true)
    (hnorule : b.routing_rules.contains r = false)
    (hnotb : r ≠ "broadcast")
    (hval : ∀ it ∈ items, validate_message (withDefaults it.1 it.2.1 it.2.2) = true)
    (hrecip : ∀ it ∈ items, dget it.1 "recipient" = some (PyVal.str r))
    (hempty : (dget b.message_queues (PyVal.str r)).getD [] = [])
    (hlen : items.length = b.max_queue_size + 1) :
    dget (sendAll b items).message_queues (PyVal.str r)
        = some ((items.map (fun it => withDefaults it.1 it.2.1 it.2.2)).drop 1)
    ∧ ((items.map (fun it => withDefaults it.1 it.2.1 it.2.2)).drop 1).length
        = b.max_queue_size
    ∧ (sendAll b items).max_queue_size = b.max_queue_size := by
  obtain ⟨h1, h2, h3⟩ := sendAll_direct_queue r items b hrun hnorule hnotb hval hrecip
  have hne : items ≠ [] := by
    intro h
    rw [h] at hlen
    simp at hlen
  have hqv : (dget (sendAll b items).message_queues (PyVal.str r)).getD []
      = (items.map (fun it => withDefaults it.1 it.2.1 it.2.2)).drop 1 := by
    rw [h1, hempty]
    rw [foldl_dequeAppend b.max_queue_size _ [] (by simp)]
    have hix : ([] : List Msg).length
        + (items.map (fun it => withDefaults it.1 it.2.1 it.2.2)).length
        - b.max_queue_size = 1 := by
      simp only [List.length_nil, List.length_map]
      omega
    rw [hix]
    simp
  refine ⟨?_, ?_, h3⟩
  · cases hopt : dget (sendAll b items).message_queues (PyVal.str r) with
    | none =>
        rw [hopt] at h2
        exact absurd (h2 hne) (by simp)
    | some qq =>
        rw [hopt] at hqv
        simp at hqv
        rw [hqv]
        simp [List.drop_one]
  · simp only [List.length_drop, List.length_map]
    omega

/-- Claim C5: a message missing any of the five required fields (sender,
recipient, role, intent, content) makes send_message fail with the
invalid-message error and leaves the bus state exactly as it was: no queue
modified, nothing appended to the history, all counters unchanged. -/
theorem C5_invalid_message_rejected (b : AsyncMessageBus) (m : Msg)
    (freshId : String) (t : Nat)
    (hrun : b.running = true)
    (hinv : validate_message m = false) :
    b.send_message m freshId t
      = (Except.error BusError.invalidMessage, b, withDefaults m freshId t) := by
  have hv : validate_message (withDefaults m freshId t) = false := by
    rw [validate_withDefaults]
    exact hinv
  simp [AsyncMessageBus.send_message, hrun, hv]

end AINX

namespace AINX

theorem broadcast_fold (mq : Msg) (s : PyVal) :
    ∀ (agents : List PyVal) (b : AsyncMessageBus),
      agents.Nodup →
      (∀ a ∈ agents, a ∈ dkeys b.message_queues) →
      ((∀ a ∈ agents, a ≠ s →
          dget (agents.foldl
              (fun acc x => if x = s then acc else acc.deliver_message mq x)
              b).message_queues a
            = some (dequeAppend b.max_queue_size
                ((dget b.message_queues a).getD []) mq))
        ∧ (∀ a : PyVal, a = s ∨ a ∉ agents →
            dget (agents.foldl
                (fun acc x => if x = s then acc else acc.deliver_message mq x)
                b).message_queues a = dget b.message_queues a)
        ∧ dkeys (agents.foldl
              (fun acc x => if x = s then acc else acc.deliver_message mq x)
              b).message_queues = dkeys b.message_queues
        ∧ (agents.foldl
              (fun acc x => if x = s then acc else acc.deliver_message mq x)
              b).max_queue_size = b.max_queue_size) := by
  intro agents
  induction agents with
  | nil =>
      intro b _ _
      exact ⟨by simp, fun a _ => rfl, rfl, rfl⟩
  | cons a0 rest ih =>
      intro b hnd hmem
      obtain ⟨h0nin, hndr⟩ := List.nodup_cons.mp hnd
      by_cases h0 : a0 = s
      · simp only [List.foldl_cons, if_pos h0]
        obtain ⟨i1, i2, i3, i4⟩ :=
          ih b hndr (fun a ha => hmem a (List.mem_cons_of_mem a0 ha))
        refine ⟨?_, ?_, i3, i4⟩
        · intro a ha has
          rcases List.mem_cons.mp ha with rfl | ha'
          · exact absurd h0 has
          · exact i1 a ha' has
        · intro a ha
          apply i2
          rcases ha with rfl | hnot
          · exact Or.inl rfl
          · exact Or.inr (fun hin => hnot (List.mem_cons_of_mem a0 hin))
      · simp only [List.foldl_cons, if_neg h0]
        have hq_a0 : dget (b.deliver_message mq a0).message_queues a0
            = some (dequeAppend b.max_queue_size
                ((dget b.message_queues a0).getD []) mq) :=
          dget_dset_self _ _ _
        have hq_ne : ∀ x : PyVal, x ≠ a0 →
            dget (b.deliver_message mq a0).message_queues x
              = dget b.message_queues x := by
          intro x hx
          exact dget_dset_ne _ _ _ _ (Ne.symm hx)
        have hkeys : dkeys (b.deliver_message mq a0).message_queues
            = dkeys b.message_queues :=
          dkeys_dset_of_mem _ _ _ (hmem a0 (List.mem_cons_self a0 rest))
        have hcap : (b.deliver_message mq a0).max_queue_size
            = b.max_queue_size := rfl
        obtain ⟨i1, i2, i3, i4⟩ := ih (b.deliver_message mq a0) hndr
          (fun a ha => by
            rw [hkeys]
            exact hmem a (List.mem_cons_of_mem a0 ha))
        refine ⟨?_, ?_, by rw [i3, hkeys], by rw [i4, hcap]⟩
        · intro a ha has
          rcases List.mem_cons.mp ha with rfl | ha'
          · rw [i2 a (Or.inr h0nin), hq_a0]
          · have hne : a ≠ a0 := fun he => h0nin (he ▸ ha')
            rw [i1 a ha' has, hq_ne a hne, hcap]
        · intro a ha
          have hne_a0 : a ≠ a0 := by
            rcases ha with rfl | hnot
            · exact fun he => h0 he.symm
            · exact fun he => hnot (he ▸ List.mem_cons_self a0 rest)
          have ha' : a = s ∨ a ∉ rest := by
            rcases ha with rfl | hnot
            · exact Or.inl rfl
            · exact Or.inr (fun hin => hnot (List.mem_cons_of_mem a0 hin))
          rw [i2 a ha', hq_ne a hne_a0]

theorem count_dequeAppend_fresh (c : Nat) (q : List Msg) (mq : Msg)
    (hc : 0 < c) (h : mq ∉ q) : (dequeAppend c q mq).count mq = 1 := by
  simp only [dequeAppend]
  by_cases hlt : c < (q ++ [mq]).length
  · rw [if_pos hlt]
    have hk : (q ++ [mq]).length - c ≤ q.length := by
      simp only [List.length_append, List.length_cons, List.length_nil]
      omega
    rw [List.drop_append_of_le_length hk, List.count_append]
    have h0 : (q.drop ((q ++ [mq]).length - c)).count mq = 0 := by
      rw [List.count_eq_zero]
      intro hm
      exact h (List.mem_of_mem_drop hm)
    rw [h0]
    simp
  · rw [if_neg hlt, List.count_append]
    rw [List.count_eq_zero.mpr h]
    simp

theorem send_message_broadcast_effect (b : AsyncMessageBus) (m : Msg)
    (freshId : String) (t : Nat)
    (hrun : b.running = true)
    (hval : validate_message (withDefaults m freshId t) = true)
    (hrecip : dget m "recipient" = some (PyVal.str "broadcast"))
    (hnodup : (dkeys b.message_queues).Nodup) :
    (b.send_message m freshId t).1 = Except.ok ()
    ∧ (∀ a ∈ dkeys b.message_queues,
        a ≠ (dget m "sender").getD PyVal.none →
        dget (b.send_message m freshId t).2.1.message_queues a
          = some (dequeAppend b.max_queue_size
              ((dget b.message_queues a).getD []) (withDefaults m freshId t)))
    ∧ (∀ a : PyVal,
        a = (dget m "sender").getD PyVal.none ∨ a ∉ dkeys b.message_queues →
        dget (b.send_message m freshId t).2.1.message_queues a
          = dget b.message_queues a)
    ∧ dkeys (b.send_message m freshId t).2.1.message_queues
        = dkeys b.message_queues
    ∧ (b.send_message m freshId t).2.1.max_queue_size = b.max_queue_size
    ∧ (b.send_message m freshId t).2.2 = withDefaults m freshId t := by
  have hrec' : dget (withDefaults m freshId t) "recipient"
      = some (PyVal.str "broadcast") := by
    rw [dget_withDefaults_other m freshId t "recipient" (by decide) (by decide)]
    exact hrecip
  have hsend' : dget (withDefaults m freshId t) "sender" = dget m "sender" :=
    dget_withDefaults_other m freshId t "sender" (by decide) (by decide)
  have hfold := broadcast_fold (withDefaults m freshId t)
    ((dget (withDefaults m freshId t) "sender").getD PyVal.none)
    (dkeys b.message_queues)
    { b with message_history :=
        dequeAppend 10000 b.message_history (withDefaults m freshId t) }
    hnodup (fun a ha => ha)
  obtain ⟨f1, f2, f3, f4⟩ := hfold
  have hred : (b.send_message m freshId t).2.1.message_queues
      = ((dkeys b.message_queues).foldl
          (fun (acc : AsyncMessageBus) x =>
            if x = (dget (withDefaults m freshId t) "sender").getD PyVal.none
            then acc else acc.deliver_message (withDefaults m freshId t) x)
          { b with message_history :=
              dequeAppend 10000 b.message_history (withDefaults m freshId t) }
        ).message_queues := by
    simp [AsyncMessageBus.send_message, hrun, hval,
      AsyncMessageBus.route_message, hrec', AsyncMessageBus.broadcast_message]
  have hredcap : (b.send_message m freshId t).2.1.max_queue_size
      = ((dkeys b.message_queues).foldl
          (fun (acc : AsyncMessageBus) x =>
            if x = (dget (withDefaults m freshId t) "sender").getD PyVal.none
            then acc else acc.deliver_message (withDefaults m freshId t) x)
          { b with message_history :=
              dequeAppend 10000 b.message_history (withDefaults m freshId t) }
        ).max_queue_size := by
    simp [AsyncMessageBus.send_message, hrun, hval,
      AsyncMessageBus.route_message, hrec', AsyncMessageBus.broadcast_message]
  refine ⟨?_, ?_, ?_, ?_, ?_, ?_⟩
  · simp [AsyncMessageBus.send_message, hrun, hval]
  · intro a ha has
    rw [hred, f1 a ha (by rw [hsend']; exact has)]
  · intro a ha
    rw [hred, f2 a (by rw [hsend']; exact ha)]
  · rw [hred, f3]
  · rw [hredcap, f4]
  · simp [AsyncMessageBus.send_message, hrun, hval]

end AINX

namespace AINX

/-- Claim C6: a send with recipient "broadcast" appends one copy of the
(defaulted) message to the queue of every known recipient other than the
sender — so each such queue holds exactly one copy when it did not hold the
message before — and the sender's own queue entry is left unchanged; no new
recipients are created. -/
theorem C6_broadcast_one_copy_each (b : AsyncMessageBus) (m : Msg)
    (freshId : String) (t : Nat)
    (hrun : b.running = true)
    (hval : validate_message (withDefaults m freshId t) = true)
    (hrecip : dget m "recipient" = some (PyVal.str "broadcast"))
    (hnodup : (dkeys b.message_queues).Nodup)
    (hcap : 0 < b.max_queue_size) :
    (∀ a ∈ dkeys b.message_queues,
        a ≠ (dget m "sender").getD PyVal.none →
        dget (b.send_message m freshId t).2.1.message_queues a
          = some (dequeAppend b.max_queue_size
              ((dget b.message_queues a).getD []) (withDefaults m freshId t)))
    ∧ (∀ a ∈ dkeys b.message_queues,
        a ≠ (dget m "sender").getD PyVal.none →
        withDefaults m freshId t ∉ (dget b.message_queues a).getD [] →
        ((dget (b.send_message m freshId t).2.1.message_queues a).getD []).count
            (withDefaults m freshId t) = 1)
    ∧ dget (b.send_message m freshId t).2.1.message_queues
          ((dget m "sender").getD PyVal.none)
        = dget b.message_queues ((dget m "sender").getD PyVal.none)
    ∧ dkeys (b.send_message m freshId t).2.1.message_queues
        = dkeys b.message_queues := by
  obtain ⟨-, e2, e3, e4, -, -⟩ :=
    send_message_broadcast_effect b m freshId t hrun hval hrecip hnodup
  refine ⟨e2, ?_, e3 _ (Or.inl rfl), e4⟩
  intro a ha has hnotin
  rw [e2 a ha has]
  simp only [Option.getD_some]
  exact count_dequeAppend_fresh b.max_queue_size _ _ hcap hnotin

/-- Claim C10: draining (or peeking) an agent id with no queue lazily
creates an empty queue for it, permanently registering it as a known
recipient: the id then appears in the stats queue_sizes with size 0,
total_agents grows by one, and the id's queue receives a copy of every
subsequent broadcast from another sender even though it was never sent a
direct message. -/
theorem C10_drain_registers_unknown_agent (b : AsyncMessageBus) (g : String)
    (m : Msg) (freshId : String) (t : Nat)
    (hg : dget b.message_queues (PyVal.str g) = Option.none)
    (hrun : b.running = true)
    (hnodup : (dkeys b.message_queues).Nodup)
    (hval : validate_message (withDefaults m freshId t) = true)
    (hrecip : dget m "recipient" = some (PyVal.str "broadcast"))
    (hsender : (dget m "sender").getD PyVal.none ≠ PyVal.str g)
    (hcap : 0 < b.max_queue_size) :
    (b.get_messages_for_agent g).1 = []
    ∧ dget (b.get_messages_for_agent g).2.message_queues (PyVal.str g)
        = some []
    ∧ dget ((b.get_messages_for_agent g).2.get_stats).queue_sizes
        (PyVal.str g) = some 0
    ∧ ((b.get_messages_for_agent g).2.get_stats).total_agents
        = b.get_stats.total_agents + 1
    ∧ dget (b.peek_messages_for_agent g).2.message_queues (PyVal.str g)
        = some []
    ∧ dget
          (((b.get_messages_for_agent g).2.send_message m freshId t).2.1).message_queues
          (PyVal.str g)
        = some [withDefaults m freshId t] := by
  have hbdq : (b.get_messages_for_agent g).2.message_queues
      = b.message_queues ++ [(PyVal.str g, [])] := by
    show dset b.message_queues (PyVal.str g) [] = _
    exact dset_of_dget_none _ _ _ hg
  have hq2 : dget (b.get_messages_for_agent g).2.message_queues (PyVal.str g)
      = some [] := by
    rw [hbdq]
    exact dget_append_single_self _ _ _ hg
  have hgk : PyVal.str g ∉ dkeys b.message_queues :=
    not_mem_keys_of_dget_eq_none _ _ hg
  have hkeys2 : dkeys (b.get_messages_for_agent g).2.message_queues
      = dkeys b.message_queues ++ [PyVal.str g] := by
    rw [hbdq]
    simp [dkeys]
  have hnodup2 : (dkeys (b.get_messages_for_agent g).2.message_queues).Nodup := by
    rw [hkeys2, List.nodup_append]
    refine ⟨hnodup, List.nodup_singleton _, ?_⟩
    intro a ha hmem
    rw [List.mem_singleton] at hmem
    exact hgk (hmem ▸ ha)
  refine ⟨?_, hq2, ?_, ?_, ?_, ?_⟩
  · show (dget b.message_queues (PyVal.str g)).getD [] = []
    rw [hg]
    rfl
  · show dget (((b.get_messages_for_agent g).2.message_queues).map
        (fun p => (p.1, p.2.length))) (PyVal.str g) = some 0
    rw [dget_map_snd, hq2]
    rfl
  · show ((b.get_messages_for_agent g).2.message_queues).length
        = b.message_queues.length + 1
    rw [hbdq]
    simp
  · have hpeek : (b.peek_messages_for_agent g).2.message_queues
        = b.message_queues ++ [(PyVal.str g, [])] := by
      simp [AsyncMessageBus.peek_messages_for_agent, hg]
    rw [hpeek]
    exact dget_append_single_self _ _ _ hg
  · obtain ⟨-, e2, -, -, -, -⟩ := send_message_broadcast_effect
      (b.get_messages_for_agent g).2 m freshId t hrun hval hrecip hnodup2
    have hmemg : PyVal.str g ∈ dkeys (b.get_messages_for_agent g).2.message_queues := by
      rw [hkeys2]
      exact List.mem_append_right _ (List.mem_singleton.mpr rfl)
    rw [e2 (PyVal.str g) hmemg (Ne.symm hsender), hq2]
    have hbdcap : (b.get_messages_for_agent g).2.max_queue_size
        = b.max_queue_size := rfl
    rw [hbdcap]
    simp only [Option.getD_some]
    simp [dequeAppend]
    omega

end AINX

namespace AINX

/-! ## Witnesses: each hypothesis-bearing claim theorem applied at a
concrete input -/

/-- Witness for C3: two sends to "bot" on a fresh capacity-2 bus, then a
drain, returns both defaulted messages in send order. -/
theorem C3_witness :
    ((runningBus 2).running = true
      ∧ (runningBus 2).routing_rules.contains "bot" = false
      ∧ "bot" ≠ "broadcast"
      ∧ (∀ it ∈ c3items,
          validate_message (withDefaults it.1 it.2.1 it.2.2) = true)
      ∧ (∀ it ∈ c3items, dget it.1 "recipient" = some (PyVal.str "bot"))
      ∧ (dget (runningBus 2).message_queues (PyVal.str "bot")).getD [] = []
      ∧ c3items.length ≤ (runningBus 2).max_queue_size)
    ∧ ((sendAll (runningBus 2) c3items).get_messages_for_agent "bot").1
        = c3items.map (fun it => withDefaults it.1 it.2.1 it.2.2) :=
  ⟨⟨by decide, by decide, by decide, by decide, by decide, by decide, by decide⟩,
    (C3_fifo_drain (runningBus 2) "bot" c3items (by decide) (by decide)
      (by decide) (by decide) (by decide) (by decide) (by decide)).1⟩

/-- Witness for C4: three sends to "bot" on a fresh capacity-2 bus leave the
last two defaulted messages, the first discarded. -/
theorem C4_witness :
    ((runningBus 2).running = true
      ∧ (runningBus 2).routing_rules.contains "bot" = false
      ∧ "bot" ≠ "broadcast"
      ∧ (∀ it ∈ c4items,
          validate_message (withDefaults it.1 it.2.1 it.2.2) = true)
      ∧ (∀ it ∈ c4items, dget it.1 "recipient" = some (PyVal.str "bot"))
      ∧ (dget (runningBus 2).message_queues (PyVal.str "bot")).getD [] = []
      ∧ c4items.length = (runningBus 2).max_queue_size + 1)
    ∧ dget (sendAll (runningBus 2) c4items).message_queues (PyVal.str "bot")
        = some ((c4items.map (fun it => withDefaults it.1 it.2.1 it.2.2)).drop 1) :=
  ⟨⟨by decide, by decide, by decide, by decide, by decide, by decide, by decide⟩,
    (C4_overflow_drops_oldest (runningBus 2) "bot" c4items (by decide)
      (by decide) (by decide) (by decide) (by decide) (by decide) (by decide)).1⟩

/-- Witness for C5: a message with only a sender field is rejected as
invalid and the bus state is returned unchanged. -/
theorem C5_witness :
    ((runningBus 1000).running = true
      ∧ validate_message [("sender", PyVal.str "human")] = false)
    ∧ (runningBus 1000).send_message [("sender", PyVal.str "human")] "id0" 5
        = (Except.error BusError.invalidMessage, runningBus 1000,
            withDefaults [("sender", PyVal.str "human")] "id0" 5) :=
  ⟨⟨by decide, by decide⟩,
    C5_invalid_message_rejected (runningBus 1000)
      [("sender", PyVal.str "human")] "id0" 5 (by decide) (by decide)⟩

/-- Witness for C6: broadcasting from "human" on a bus knowing alice, bob
and human appends one copy to alice's queue. -/
theorem C6_witness :
    (broadcastBus.running = true
      ∧ validate_message
          (withDefaults (mkTestMsg "human" "broadcast" (PyVal.int 9)) "idb" 7)
          = true
      ∧ dget (mkTestMsg "human" "broadcast" (PyVal.int 9)) "recipient"
          = some (PyVal.str "broadcast")
      ∧ (dkeys broadcastBus.message_queues).Nodup
      ∧ 0 < broadcastBus.max_queue_size
      ∧ PyVal.str "alice" ∈ dkeys broadcastBus.message_queues
      ∧ PyVal.str "alice"
          ≠ (dget (mkTestMsg "human" "broadcast" (PyVal.int 9)) "sender").getD
              PyVal.none)
    ∧ dget (broadcastBus.send_message
          (mkTestMsg "human" "broadcast" (PyVal.int 9)) "idb" 7).2.1.message_queues
        (PyVal.str "alice")
        = some (dequeAppend broadcastBus.max_queue_size
            ((dget broadcastBus.message_queues (PyVal.str "alice")).getD [])
            (withDefaults (mkTestMsg "human" "broadcast" (PyVal.int 9)) "idb" 7)) :=
  ⟨⟨by decide, by decide, by decide, by decide, by decide, by decide, by decide⟩,
    (C6_broadcast_one_copy_each broadcastBus
      (mkTestMsg "human" "broadcast" (PyVal.int 9)) "idb" 7 (by decide)
      (by decide) (by decide) (by decide) (by decide)).1
      (PyVal.str "alice") (by decide) (by decide)⟩

/-- Witness for C10: draining unknown "ghost" registers it, and a following
broadcast from "human" lands one copy in ghost's queue. -/
theorem C10_witness :
    (dget broadcastBus.message_queues (PyVal.str "ghost") = Option.none
      ∧ broadcastBus.running = true
      ∧ (dkeys broadcastBus.message_queues).Nodup
      ∧ validate_message
          (withDefaults (mkTestMsg "human" "broadcast" PyVal.none) "idg" 9)
          = true
      ∧ dget (mkTestMsg "human" "broadcast" PyVal.none) "recipient"
          = some (PyVal.str "broadcast")
      ∧ (dget (mkTestMsg "human" "broadcast" PyVal.none) "sender").getD
            PyVal.none
          ≠ PyVal.str "ghost"
      ∧ 0 < broadcastBus.max_queue_size)
    ∧ dget
          (((broadcastBus.get_messages_for_agent "ghost").2.send_message
            (mkTestMsg "human" "broadcast" PyVal.none) "idg" 9).2.1).message_queues
          (PyVal.str "ghost")
        = some [withDefaults (mkTestMsg "human" "broadcast" PyVal.none) "idg" 9] :=
  ⟨⟨by decide, by decide, by decide, by decide, by decide, by decide, by decide⟩,
    (C10_drain_registers_unknown_agent broadcastBus "ghost"
      (mkTestMsg "human" "broadcast" PyVal.none) "idg" 9 (by decide) (by decide)
      (by decide) (by decide) (by decide) (by decide)
      (by decide)).2.2.2.2.2⟩

end AINX
